import Mathlib

/- Shallow embedding of the budget-planner allocation, forecasting and
state-codec engine of src/src/app/app.component.ts. JS numbers are modeled
as exact rationals; JS strings handed to numeric parsing are modeled
together with the finite value Number.parseFloat would produce on them. -/

set_option maxRecDepth 8000

/-- A raw value handed to an engine operation by the presentation layer:
either a JS number (finite, or the non-finite NaN/Infinity case), or a JS
string carried together with the finite value Number.parseFloat would
return on it (`none` when parseFloat yields NaN or an infinity). -/
inductive RawInput where
  | num (q : ℚ)
  | nan
  | str (parsedFloat : Option ℚ)
deriving DecidableEq

/-- parseNumber from app.component.ts: `typeof value === 'number' ? value :
Number.parseFloat(value)` guarded by `Number.isFinite`, falling back to 0. -/
def parseNumber : RawInput → ℚ
  | .num q => q
  | .nan => 0
  | .str (some q) => q
  | .str none => 0

/-- JS Math.round: rounds half toward positive infinity. -/
def jsRound (q : ℚ) : ℤ := ⌊q + 1/2⌋

/-- The shared two-decimal rounding `Math.round(value * 100) / 100`. -/
def round2 (q : ℚ) : ℚ := (jsRound (q * 100) : ℚ) / 100

/-- roundCurrency from app.component.ts. -/
def roundCurrency (q : ℚ) : ℚ := round2 q

/-- roundPercentage from app.component.ts. -/
def roundPercentage (q : ℚ) : ℚ := round2 q

/-- clampNumber from app.component.ts: `Math.min(Math.max(value, min), max)`. -/
def clampNumber (value lo hi : ℚ) : ℚ := min (max value lo) hi

/-- The Category interface of app.component.ts. -/
structure Category where
  name : String
  percentage : ℚ
  amount : ℚ
  isSavings : Bool
deriving DecidableEq

/-- The forecastPeriodUnit field: the literal 'months' or 'years'. -/
inductive PeriodUnit where
  | months
  | years
deriving DecidableEq

/-- The mutable fields of the AppComponent that the engine operations read
and write (income, rate/period configuration, category list, and the two
transient UI flags). -/
structure EngineState where
  income : ℚ
  interestRate : ℚ
  forecastPeriodValue : ℚ
  forecastPeriodUnit : PeriodUnit
  categories : List Category
  allocationClamped : Bool
  needsIncomeWarning : Bool
deriving DecidableEq

/-- The BudgetPlannerState interface of app.component.ts: the five fields
that are persisted and imported. -/
structure BudgetPlannerState where
  income : ℚ
  interestRate : ℚ
  forecastPeriodValue : ℚ
  forecastPeriodUnit : PeriodUnit
  categories : List Category
deriving DecidableEq

/-- The component's initial field values: income 0, no categories, default
rate/period, flags cleared. -/
def initialState : EngineState :=
  { income := 0, interestRate := 0, forecastPeriodValue := 12,
    forecastPeriodUnit := .months, categories := [],
    allocationClamped := false, needsIncomeWarning := false }

/-- The totalPercentage getter:
`categories.reduce((total, c) => total + c.percentage, 0)`. -/
def totalPercentage (s : EngineState) : ℚ :=
  s.categories.foldl (fun total c => total + c.percentage) 0

/-- maxPercentageFor from app.component.ts: the source reduce adds the
percentage of every category whose position differs from `index`, which is
the percentage sum over `categories.eraseIdx index`; the result is
`Math.max(0, 100 - allocated)`. -/
def maxPercentageFor (categories : List Category) (index : ℕ) : ℚ :=
  max 0 (100 - ((categories.eraseIdx index).map (·.percentage)).sum)

/-- recalculateAmounts: rewrite every amount as
`roundCurrency(income * percentage / 100)`. -/
def recalculateAmounts (income : ℚ) (categories : List Category) : List Category :=
  categories.map fun c => { c with amount := roundCurrency (income * c.percentage / 100) }

/-- updateIncome: `income := Math.max(0, parseNumber(value))`, clear the
income warning, recompute every amount. -/
def updateIncome (s : EngineState) (value : RawInput) : EngineState :=
  let income := max 0 (parseNumber value)
  { s with income := income,
           needsIncomeWarning := false,
           categories := recalculateAmounts income s.categories }

/-- addCategory: append a fresh category named after its 1-based position,
with percentage 0, amount 0, isSavings false; clear the clamped flag. -/
def addCategory (s : EngineState) : EngineState :=
  { s with
      categories := s.categories ++ [{ name := "Category " ++ toString (s.categories.length + 1), percentage := 0, amount := 0, isSavings := false }],
      allocationClamped := false }

/-- Array.prototype.splice(start, 1): a negative start counts back from the
end of the list (floored at position 0), a start at or past the end removes
nothing; at most one element, at the resolved position, is removed. -/
def spliceRemoveOne (l : List Category) (start : ℤ) : List Category :=
  let actual : ℕ := if start < 0 then ((l.length : ℤ) + start).toNat else min start.toNat l.length
  l.take actual ++ l.drop (actual + 1)

/-- removeCategory: `categories.splice(index, 1)` and clear both transient
flags. The source never raises on any index value. -/
def removeCategory (s : EngineState) (index : ℤ) : EngineState :=
  { s with categories := spliceRemoveOne s.categories index,
           allocationClamped := false,
           needsIncomeWarning := false }

/-- updateCategoryName: direct field write. An out-of-range index makes the
source throw on the indexed access before writing anything; that aborted
call leaves the state unchanged. -/
def updateCategoryName (s : EngineState) (index : ℕ) (value : String) : EngineState :=
  if h : index < s.categories.length then
    { s with categories := s.categories.set index ({ s.categories.get ⟨index, h⟩ with name := value }) }
  else s

/-- updateCategorySavings: direct field write, same out-of-range behavior as
updateCategoryName. -/
def updateCategorySavings (s : EngineState) (index : ℕ) (value : Bool) : EngineState :=
  if h : index < s.categories.length then
    { s with categories := s.categories.set index ({ s.categories.get ⟨index, h⟩ with isSavings := value }) }
  else s

/-- updateCategoryPercentage from app.component.ts. On an out-of-range
index the source writes `allocationClamped` and then throws on the indexed
percentage write, so only the flag changes. -/
def updateCategoryPercentage (s : EngineState) (index : ℕ) (value : RawInput) : EngineState :=
  let parsed := clampNumber (parseNumber value) 0 100
  let maxAllowed := maxPercentageFor s.categories index
  let nextPercentage := min parsed maxAllowed
  if h : index < s.categories.length then
    let c := s.categories.get ⟨index, h⟩
    let newPct := roundPercentage nextPercentage
    { s with
      allocationClamped := decide (maxAllowed < parsed),
      categories := s.categories.set index ({ c with percentage := newPct, amount := roundCurrency (s.income * newPct / 100) }) }
  else
    { s with allocationClamped := decide (maxAllowed < parsed) }

/-- updateCategoryAmount from app.component.ts (the current revision: the
amount is recomputed from the truncated percentage only in the clamped
branch). On an out-of-range index the source throws on its first indexed
write, leaving the state unchanged. -/
def updateCategoryAmount (s : EngineState) (index : ℕ) (value : RawInput) : EngineState :=
  let amount := max 0 (parseNumber value)
  if h : index < s.categories.length then
    let c0 := s.categories.get ⟨index, h⟩
    if s.income ≤ 0 then
      { s with
        categories := s.categories.set index ({ c0 with amount := roundCurrency amount, percentage := 0 }),
        needsIncomeWarning := decide (0 < amount) }
    else
      let rawPercentage := amount / s.income * 100
      let maxAllowed := maxPercentageFor s.categories index
      let newPct := roundPercentage (if maxAllowed < rawPercentage then maxAllowed else rawPercentage)
      let newAmt := if maxAllowed < rawPercentage then roundCurrency (s.income * newPct / 100)
                    else roundCurrency amount
      { s with
        categories := s.categories.set index ({ c0 with percentage := newPct, amount := newAmt }),
        allocationClamped := decide (maxAllowed < rawPercentage),
        needsIncomeWarning := false }
  else s

/-- The forecastMonths getter: `Math.max(0, parseNumber(forecastPeriodValue))`
times 12 when the unit is years. -/
def forecastMonths (s : EngineState) : ℚ :=
  let value := max 0 (parseNumber (.num s.forecastPeriodValue))
  if s.forecastPeriodUnit = .years then value * 12 else value

/-- Math.pow as the engine uses it: the exponent is a month count; on a
non-negative integer exponent Math.pow is iterated multiplication, exact
over ℚ. A fractional exponent would be real exponentiation with no exact
rational value; those inputs are mapped to 0 and no theorem below depends
on the value taken there. -/
def powQ (b : ℚ) (e : ℚ) : ℚ :=
  if 0 ≤ e.num ∧ e.den = 1 then b ^ e.num.toNat else 0

/-- futureValueForContribution from app.component.ts. -/
def futureValueForContribution (s : EngineState) (contribution : ℚ) : ℚ :=
  if contribution ≤ 0 ∨ forecastMonths s ≤ 0 then 0
  else
    let annualRate := max 0 s.interestRate / 100
    let monthlyRate := annualRate / 12
    if monthlyRate = 0 then roundCurrency (contribution * forecastMonths s)
    else
      let growthFactor := powQ (1 + monthlyRate) (forecastMonths s)
      roundCurrency (contribution * ((growthFactor - 1) / monthlyRate))

/-- The totalSavingsAllocation getter: roundCurrency of the amount sum over
the isSavings categories. -/
def totalSavingsAllocation (s : EngineState) : ℚ :=
  roundCurrency ((s.categories.filter (·.isSavings)).foldl (fun sum c => sum + c.amount) 0)

/-- The projectedSavingsValue getter. -/
def projectedSavingsValue (s : EngineState) : ℚ :=
  futureValueForContribution s (totalSavingsAllocation s)

/-- The SavingsForecast interface of app.component.ts. -/
structure SavingsForecast where
  name : String
  monthlyContribution : ℚ
  projectedValue : ℚ
deriving DecidableEq

/-- The savingsForecasts getter: one entry per isSavings category, in order,
named by the trimmed category name or a positional default. -/
def savingsForecasts (s : EngineState) : List SavingsForecast :=
  (s.categories.filter (·.isSavings)).enum.map fun p =>
    { name := if p.2.name.trim = "" then "Savings " ++ toString (p.1 + 1) else p.2.name.trim,
      monthlyContribution := p.2.amount,
      projectedValue := futureValueForContribution s p.2.amount }

/-- A parsed JSON value. A string leaf carries both its text and the finite
value Number.parseFloat would return on that text (`none` when parseFloat
yields NaN or an infinity), so that the numeric coercion of string fields
can be stated without embedding a decimal parser. -/
inductive Json where
  | null
  | bool (b : Bool)
  | num (q : ℚ)
  | str (text : String) (parsedFloat : Option ℚ)
  | arr (items : List Json)
  | obj (fields : List (String × Json))

/-- Property lookup `data['key']` on a parsed JSON object: `none` models the
JS `undefined` for an absent key. -/
def getField (fields : List (String × Json)) (key : String) : Option Json :=
  (fields.find? fun p => p.1 == key).map (·.2)

/-- The guard `value && typeof value === 'object'` on a top-level value:
JS arrays also have typeof 'object', so both objects and arrays pass; an
array carries no named keys, so its record view is empty. Null and the
primitives are rejected. -/
def jsRecord : Json → Option (List (String × Json))
  | .obj fields => some fields
  | .arr _ => some []
  | _ => none

/-- coerceString from app.component.ts. -/
def coerceString (value : Option Json) (fallback : String) : String :=
  match value with
  | some (.str s _) => s
  | _ => fallback

/-- coerceNumber from app.component.ts: a finite number is kept, a string is
parseFloat-ed and kept when finite, anything else gives the fallback. -/
def coerceNumber (value : Option Json) (fallback : ℚ) : ℚ :=
  match value with
  | some (.num q) => q
  | some (.str _ (some q)) => q
  | _ => fallback

/-- coerceBoolean from app.component.ts. -/
def coerceBoolean (value : Option Json) (fallback : Bool) : Bool :=
  match value with
  | some (.bool b) => b
  | _ => fallback

/-- The element filter `item && typeof item === 'object'` applied to each
entry of the categories array: objects and arrays pass, null and the
primitives are dropped. -/
def isRecordItem : Json → Bool
  | .obj _ => true
  | .arr _ => true
  | _ => false

/-- The per-element coercion of a surviving categories entry; `index` is the
position within the filtered array. -/
def coerceCategory (index : ℕ) (item : Json) : Category :=
  let entry := (jsRecord item).getD []
  { name := coerceString (getField entry ("name")) ("Category " ++ toString (index + 1)),
    percentage := roundPercentage (clampNumber (coerceNumber (getField entry ("percentage")) 0) 0 100),
    amount := roundCurrency (max 0 (coerceNumber (getField entry ("amount")) 0)),
    isSavings := coerceBoolean (getField entry ("isSavings")) false }

/-- The categories branch of parseState: an absent or non-array field gives
an empty list, otherwise filter then coerce with positions taken in the
filtered array. -/
def parseCategoriesField (value : Option Json) : List Category :=
  match value with
  | some (.arr items) => (items.filter isRecordItem).enum.map fun p => coerceCategory p.1 p.2
  | _ => []

/-- The strict comparison `data['forecastPeriodUnit'] === 'years'`. -/
def isYearsMarker (value : Option Json) : Bool :=
  match value with
  | some (.str s _) => s == "years"
  | _ => false

/-- parseState from app.component.ts. -/
def parseState (value : Json) : Option BudgetPlannerState :=
  match jsRecord value with
  | none => none
  | some data =>
    some { income := max 0 (coerceNumber (getField data ("income")) 0),
           interestRate := max 0 (coerceNumber (getField data ("interestRate")) 0),
           forecastPeriodValue := max 0 (coerceNumber (getField data ("forecastPeriodValue")) 12),
           forecastPeriodUnit :=
             if isYearsMarker (getField data ("forecastPeriodUnit")) then .years else .months,
           categories := parseCategoriesField (getField data ("categories")) }

/-- The serialized text of a period unit. -/
def periodUnitText : PeriodUnit → String
  | .months => "months"
  | .years => "years"

/-- The serialized shape of one category, as buildState emits it. The
emitted strings are never read back numerically by parseState, so their
parseFloat component is irrelevant and recorded as none. -/
def categoryJson (c : Category) : Json :=
  .obj [("name", .str c.name none),
        ("percentage", .num c.percentage),
        ("amount", .num c.amount),
        ("isSavings", .bool c.isSavings)]

/-- buildState from app.component.ts: the canonical serialized structure. -/
def buildState (p : BudgetPlannerState) : Json :=
  .obj [("income", .num (roundCurrency p.income)),
        ("interestRate", .num (roundPercentage p.interestRate)),
        ("forecastPeriodValue", .num p.forecastPeriodValue),
        ("forecastPeriodUnit", .str (periodUnitText p.forecastPeriodUnit) none),
        ("categories", .arr (p.categories.map categoryJson))]

/-- The import path safeParseJson-then-parseState: a raw text payload is
modeled by its JSON parse result, `none` when JSON.parse throws (so
safeParseJson returns null) and `some v` when the text parses to `v`. -/
def deserialize (raw : Option Json) : Option BudgetPlannerState :=
  match raw with
  | none => none
  | some v => parseState v

/-- The AllocationEngine operations named by the specification, as issued by
the presentation layer. -/
inductive Op where
  | setIncome (value : RawInput)
  | addCategory
  | removeCategory (index : ℤ)
  | setCategoryName (index : ℕ) (value : String)
  | setCategorySavings (index : ℕ) (value : Bool)
  | setCategoryPercentage (index : ℕ) (value : RawInput)
  | setCategoryAmount (index : ℕ) (value : RawInput)

/-- One engine operation applied to the component state. -/
def step (s : EngineState) : Op → EngineState
  | .setIncome v => updateIncome s v
  | .addCategory => addCategory s
  | .removeCategory i => removeCategory s i
  | .setCategoryName i v => updateCategoryName s i v
  | .setCategorySavings i v => updateCategorySavings s i v
  | .setCategoryPercentage i v => updateCategoryPercentage s i v
  | .setCategoryAmount i v => updateCategoryAmount s i v

/-- A whole operation sequence applied from the empty initial state. -/
def runOps (ops : List Op) : EngineState := ops.foldl step initialState

/-- A rational that is a whole number of hundredths (the two-decimal grid
every rounded field lives on). -/
def IsCent (q : ℚ) : Prop := ∃ n : ℤ, q = (n : ℚ) / 100

/-- The per-category part of the allocation invariant. -/
def PctOk (c : Category) : Prop :=
  0 ≤ c.percentage ∧ c.percentage ≤ 100 ∧ IsCent c.percentage

/-- The allocation invariant maintained by every engine operation. -/
def EngineInv (s : EngineState) : Prop :=
  (∀ c ∈ s.categories, PctOk c) ∧ (s.categories.map (·.percentage)).sum ≤ 100

/-- A valid BudgetPlannerState in the sense of the specification data model:
non-negative rounded scalars, categories with in-range rounded percentages
and non-negative rounded amounts. -/
def validBudgetState (p : BudgetPlannerState) : Prop :=
  0 ≤ p.income ∧ round2 p.income = p.income ∧
  0 ≤ p.interestRate ∧ round2 p.interestRate = p.interestRate ∧
  0 ≤ p.forecastPeriodValue ∧ round2 p.forecastPeriodValue = p.forecastPeriodValue ∧
  ∀ c ∈ p.categories,
    0 ≤ c.percentage ∧ c.percentage ≤ 100 ∧ round2 c.percentage = c.percentage ∧
    0 ≤ c.amount ∧ round2 c.amount = c.amount

/-- The numeric value a raw input denotes, when that value is finite; stated
from the specification's wording for parseNumber. -/
def numericValue : RawInput → Option ℚ
  | .num q => some q
  | .nan => none
  | .str p => p

/-- Spec-side classifier for deserialize inputs the code rejects: malformed
text, or a top-level value that is null or a primitive. -/
def topLevelRejected : Option Json → Prop
  | none => True
  | some .null => True
  | some (.bool _) => True
  | some (.num _) => True
  | some (.str _ _) => True
  | some (.arr _) => False
  | some (.obj _) => False

/-- Spec-side classifier for categories entries that survive coercion under
the amended reading: structured objects and arrays. -/
def specKeepsElement : Json → Bool
  | .obj _ => true
  | .arr _ => true
  | _ => false

/-- A category literal for concrete instances. -/
def mkCat (pct amt : ℚ) : Category :=
  { name := "", percentage := pct, amount := amt, isSavings := false }

/-- An engine state literal for concrete instances. -/
def mkState (income : ℚ) (cats : List Category) : EngineState :=
  { initialState with income := income, categories := cats }

theorem round2_isCent (q : ℚ) : IsCent (round2 q) := ⟨jsRound (q * 100), rfl⟩

theorem round2_of_isCent {q : ℚ} (h : IsCent q) : round2 q = q := by
  obtain ⟨n, rfl⟩ := h
  unfold round2 jsRound
  rw [div_mul_cancel₀ _ (by norm_num : (100:ℚ) ≠ 0)]
  norm_num

theorem IsCent.add {a b : ℚ} (ha : IsCent a) (hb : IsCent b) : IsCent (a + b) := by
  obtain ⟨m, rfl⟩ := ha
  obtain ⟨n, rfl⟩ := hb
  exact ⟨m + n, by push_cast; ring⟩

theorem IsCent.of_sub_from_hundred {a : ℚ} (ha : IsCent a) : IsCent (100 - a) := by
  obtain ⟨m, rfl⟩ := ha
  exact ⟨10000 - m, by push_cast; ring⟩

theorem IsCent.max_zero {a : ℚ} (ha : IsCent a) : IsCent (max 0 a) := by
  rcases le_total a 0 with h | h
  · rw [max_eq_left h]; exact ⟨0, by norm_num⟩
  · rw [max_eq_right h]; exact ha

theorem isCent_zero : IsCent 0 := ⟨0, by norm_num⟩

theorem isCent_hundred : IsCent 100 := ⟨10000, by norm_num⟩

theorem round2_mono {a b : ℚ} (h : a ≤ b) : round2 a ≤ round2 b := by
  unfold round2 jsRound
  have hf : (⌊a * 100 + 1/2⌋ : ℤ) ≤ ⌊b * 100 + 1/2⌋ := Int.floor_le_floor (by linarith)
  have hf' : ((⌊a * 100 + 1/2⌋ : ℤ) : ℚ) ≤ ((⌊b * 100 + 1/2⌋ : ℤ) : ℚ) := by exact_mod_cast hf
  linarith

theorem round2_zero : round2 0 = 0 := round2_of_isCent isCent_zero

theorem round2_nonneg {a : ℚ} (h : 0 ≤ a) : 0 ≤ round2 a := by
  have := round2_mono h
  rwa [round2_zero] at this

theorem round2_le_of_le_cent {a b : ℚ} (hab : a ≤ b) (hb : IsCent b) : round2 a ≤ b := by
  have := round2_mono hab
  rwa [round2_of_isCent hb] at this

theorem abs_round2_sub_le (q : ℚ) : |round2 q - q| ≤ 1/200 := by
  unfold round2 jsRound
  have h1 : ((⌊q * 100 + 1/2⌋ : ℤ) : ℚ) ≤ q * 100 + 1/2 := Int.floor_le _
  have h2 : q * 100 + 1/2 < ((⌊q * 100 + 1/2⌋ : ℤ) : ℚ) + 1 := Int.lt_floor_add_one _
  rw [abs_le]
  constructor
  · linarith
  · linarith

theorem eraseIdx_set_self {α : Type} (l : List α) (i : ℕ) (x : α) :
    (l.set i x).eraseIdx i = l.eraseIdx i := by
  induction l generalizing i with
  | nil => simp
  | cons a t ih =>
    cases i with
    | zero => simp [List.eraseIdx]
    | succ n => simp [List.eraseIdx, ih]

theorem sum_eraseIdx_add_get (l : List ℚ) (i : ℕ) (h : i < l.length) :
    (l.eraseIdx i).sum + l.get ⟨i, h⟩ = l.sum := by
  induction l generalizing i with
  | nil => simp at h
  | cons a t ih =>
    cases i with
    | zero => simp [List.eraseIdx, add_comm]
    | succ n =>
      simp only [List.eraseIdx, List.sum_cons, List.get_cons_succ]
      have := ih n (by simpa using h)
      linarith

theorem sum_set_eq (l : List ℚ) (i : ℕ) (h : i < l.length) (x : ℚ) :
    (l.set i x).sum = (l.eraseIdx i).sum + x := by
  induction l generalizing i with
  | nil => simp at h
  | cons a t ih =>
    cases i with
    | zero => simp [List.eraseIdx, add_comm]
    | succ n =>
      simp only [List.set, List.eraseIdx, List.sum_cons]
      have := ih n (by simpa using h)
      linarith

theorem sum_eraseIdx_le (l : List ℚ) (i : ℕ) (h0 : ∀ x ∈ l, 0 ≤ x) :
    (l.eraseIdx i).sum ≤ l.sum := by
  by_cases h : i < l.length
  · have := sum_eraseIdx_add_get l i h
    have hx : 0 ≤ l.get ⟨i, h⟩ := h0 _ (l.get_mem _ _)
    linarith
  · rw [List.eraseIdx_of_length_le (by omega)]

theorem foldl_add_eq_sum (f : Category → ℚ) (l : List Category) (a : ℚ) :
    l.foldl (fun t c => t + f c) a = a + (l.map f).sum := by
  induction l generalizing a with
  | nil => simp
  | cons c t ih => simp [ih, add_assoc]

theorem totalPercentage_eq_sum (s : EngineState) :
    totalPercentage s = (s.categories.map (·.percentage)).sum := by
  simpa using foldl_add_eq_sum (·.percentage) s.categories 0

/-- C9: parseNumber is total by construction, returns the input's numeric
value whenever that value is finite, and returns 0 on every non-numeric,
empty or non-finite input (NaN/Infinity numbers, and strings whose
parseFloat result is not finite). -/
theorem claimC9_parseNumber_total (v : RawInput) :
    parseNumber v = (numericValue v).getD 0 := by
  cases v with
  | num q => rfl
  | nan => rfl
  | str p => cases p <;> rfl

/-- C4: futureValue returns 0 when the contribution or the month count is
not positive, returns exactly round2(c * forecastMonths) when the monthly
rate is 0, and otherwise returns the rounded ordinary-annuity future value;
forecastMonths is the period value, times 12 when the unit is years. Stated
for configurations respecting the data-model bounds interestRate ≥ 0 and
forecastPeriodValue ≥ 0. -/
theorem claimC4_futureValue_spec (s : EngineState) (c : ℚ)
    (hr : 0 ≤ s.interestRate) (hf : 0 ≤ s.forecastPeriodValue) :
    forecastMonths s = (if s.forecastPeriodUnit = .years then s.forecastPeriodValue * 12 else s.forecastPeriodValue) ∧
    futureValueForContribution s c =
      (if c ≤ 0 ∨ forecastMonths s ≤ 0 then 0
       else if s.interestRate / 100 / 12 = 0 then round2 (c * forecastMonths s)
       else round2 (c * ((powQ (1 + s.interestRate / 100 / 12) (forecastMonths s) - 1) / (s.interestRate / 100 / 12)))) := by
  constructor
  · unfold forecastMonths
    simp [parseNumber, max_eq_right hf]
  · unfold futureValueForContribution
    rw [max_eq_right hr]
    rfl

theorem claimC4_witness :
    futureValueForContribution (mkState 0 []) 100 = 1200 ∧
    round2 (100 * forecastMonths (mkState 0 [])) = 1200 := by
  have h := claimC4_futureValue_spec (mkState 0 []) 100 (by norm_num [mkState, initialState]) (by norm_num [mkState, initialState])
  have hm : forecastMonths (mkState 0 []) = 12 := by
    rw [h.1]; simp [mkState, initialState]
  have hval : round2 (100 * forecastMonths (mkState 0 [])) = 1200 := by
    rw [hm]; norm_num [round2, jsRound]
  refine ⟨?_, hval⟩
  rw [h.2]
  rw [if_neg (by rw [hm]; norm_num [mkState, initialState]), if_pos (by norm_num [mkState, initialState])]
  exact hval

/-- C2: setCategoryPercentage writes, at the given index only, the
percentage round2(min(clamp(parseNumber(raw), 0, 100), maxAllowed)) with
maxAllowed = max(0, 100 - sum of the other categories' percentages), writes
the amount round2(income * newPercentage / 100), and sets the global
allocationClamped flag exactly when the clamped parsed value exceeds
maxAllowed; income and the warning flag are untouched. -/
theorem claimC2_setCategoryPercentage_spec (s : EngineState) (i : ℕ) (v : RawInput)
    (h : i < s.categories.length) :
    (updateCategoryPercentage s i v).categories =
      s.categories.set i
        ({ s.categories.get ⟨i, h⟩ with
            percentage := round2 (min (clampNumber (parseNumber v) 0 100) (max 0 (100 - ((s.categories.eraseIdx i).map (·.percentage)).sum))),
            amount := round2 (s.income * round2 (min (clampNumber (parseNumber v) 0 100) (max 0 (100 - ((s.categories.eraseIdx i).map (·.percentage)).sum))) / 100) }) ∧
    (updateCategoryPercentage s i v).allocationClamped
      = decide (max 0 (100 - ((s.categories.eraseIdx i).map (·.percentage)).sum) < clampNumber (parseNumber v) 0 100) ∧
    (updateCategoryPercentage s i v).income = s.income ∧
    (updateCategoryPercentage s i v).needsIncomeWarning = s.needsIncomeWarning := by
  unfold updateCategoryPercentage maxPercentageFor roundPercentage roundCurrency
  rw [dif_pos h]
  exact ⟨rfl, rfl, rfl, rfl⟩

theorem claimC2_witness :
    (updateCategoryPercentage (mkState 1000 [mkCat 60 600, mkCat 0 0]) 1 (RawInput.num 50)).categories
      = [mkCat 60 600, { name := "", percentage := 40, amount := 400, isSavings := false }] ∧
    (updateCategoryPercentage (mkState 1000 [mkCat 60 600, mkCat 0 0]) 1 (RawInput.num 50)).allocationClamped = true := by
  have h := claimC2_setCategoryPercentage_spec (mkState 1000 [mkCat 60 600, mkCat 0 0]) 1 (RawInput.num 50)
    (by norm_num [mkState, initialState])
  refine ⟨?_, ?_⟩
  · rw [h.1]
    norm_num [mkState, initialState, mkCat, parseNumber, clampNumber, round2, jsRound, List.set]
  · rw [h.2.1]
    norm_num [mkState, initialState, mkCat, parseNumber, clampNumber]

theorem maxPercentageFor_set_self (l : List Category) (i : ℕ) (c : Category) :
    maxPercentageFor (l.set i c) i = maxPercentageFor l i := by
  unfold maxPercentageFor
  rw [eraseIdx_set_self]

/-- C10: applying setCategoryPercentage twice with the same index and raw
value gives exactly the state of a single application: the second run reads
an unchanged headroom (the other categories are untouched), recomputes the
same rounded percentage and amount, and rewrites the same flag value. -/
theorem claimC10_setCategoryPercentage_idempotent (s : EngineState) (i : ℕ) (v : RawInput)
    (h : i < s.categories.length) :
    updateCategoryPercentage (updateCategoryPercentage s i v) i v = updateCategoryPercentage s i v := by
  unfold updateCategoryPercentage
  rw [dif_pos h]
  have hlen : i < (s.categories.set i ({ s.categories.get ⟨i, h⟩ with percentage := roundPercentage (min (clampNumber (parseNumber v) 0 100) (maxPercentageFor s.categories i)), amount := roundCurrency (s.income * roundPercentage (min (clampNumber (parseNumber v) 0 100) (maxPercentageFor s.categories i)) / 100) })).length := by
    simpa using h
  rw [dif_pos hlen]
  simp only [maxPercentageFor_set_self, List.get_eq_getElem, List.getElem_set_self, List.set_set]

/-- C8 (amended): for an index that is a position of the current category
list, removeCategory deletes exactly that category, leaving the others in
order, clears both the allocationClamped and needsIncomeWarning flags, and
leaves income unchanged. The source uses splice, which never signals an
error: the claimed IndexOutOfRange failure on an invalid index does not
exist (see the counterexample, where a negative index silently deletes the
last category). -/
theorem claimC8_removeCategory_amended (s : EngineState) (i : ℤ)
    (h0 : 0 ≤ i) (h : i.toNat < s.categories.length) :
    (removeCategory s i).categories = s.categories.eraseIdx i.toNat ∧
    (removeCategory s i).allocationClamped = false ∧
    (removeCategory s i).needsIncomeWarning = false ∧
    (removeCategory s i).income = s.income := by
  refine ⟨?_, rfl, rfl, rfl⟩
  show spliceRemoveOne s.categories i = s.categories.eraseIdx i.toNat
  unfold spliceRemoveOne
  rw [if_neg (by omega), min_eq_left (le_of_lt h)]
  exact (List.eraseIdx_eq_take_drop_succ _ _).symm

theorem claimC8_witness :
    (removeCategory (mkState 7 [mkCat 10 0, mkCat 20 0]) 0).categories = [mkCat 20 0] ∧
    (removeCategory (mkState 7 [mkCat 10 0, mkCat 20 0]) 0).allocationClamped = false ∧
    (removeCategory (mkState 7 [mkCat 10 0, mkCat 20 0]) 0).needsIncomeWarning = false ∧
    (removeCategory (mkState 7 [mkCat 10 0, mkCat 20 0]) 0).income = 7 := by
  have h := claimC8_removeCategory_amended (mkState 7 [mkCat 10 0, mkCat 20 0]) 0
    (by norm_num) (by norm_num [mkState, initialState])
  refine ⟨?_, h.2.1, h.2.2.1, ?_⟩
  · rw [h.1]; rfl
  · rw [h.2.2.2]; rfl

/-- C8 counterexample: the index -1 is not a position of the current
category list, yet removeCategory completes without any error and deletes
the last category — the list is modified, refuting the claimed
IndexOutOfRange failure on invalid indices. -/
theorem claimC8_counterexample :
    (removeCategory (mkState 0 [mkCat 10 0, mkCat 20 0]) (-1)).categories = [mkCat 10 0] ∧
    (removeCategory (mkState 0 [mkCat 10 0, mkCat 20 0]) (-1)).categories
      ≠ (mkState 0 [mkCat 10 0, mkCat 20 0]).categories := by
  have hc : (removeCategory (mkState 0 [mkCat 10 0, mkCat 20 0]) (-1)).categories = [mkCat 10 0] := by
    show spliceRemoveOne [mkCat 10 0, mkCat 20 0] (-1) = [mkCat 10 0]
    unfold spliceRemoveOne
    norm_num
  refine ⟨hc, ?_⟩
  rw [hc]
  simp [mkState, initialState, mkCat]

/-- C3 (amended): setCategoryAmount with amount = max(0, parseNumber(raw))
stores round2(amount) — the engine rounds the entered amount to cents, the
only change forced on the claim. With income ≤ 0 it forces the percentage
to 0, sets needsIncomeWarning to (amount > 0), keeps the clamped flag, and
leaves the rounded entered amount in place. With income > 0 it writes
percentage round2(min(amount/income*100, maxAllowed)), sets
allocationClamped exactly when amount/income*100 exceeds maxAllowed,
recomputes the amount from the truncated percentage only in the clamped
case (keeping the rounded entered amount otherwise), and clears
needsIncomeWarning. No other category and no other field changes. -/
theorem claimC3_setCategoryAmount_amended (s : EngineState) (i : ℕ) (v : RawInput)
    (h : i < s.categories.length) :
    (s.income ≤ 0 →
      (updateCategoryAmount s i v).categories =
        s.categories.set i ({ s.categories.get ⟨i, h⟩ with percentage := 0, amount := round2 (max 0 (parseNumber v)) }) ∧
      (updateCategoryAmount s i v).needsIncomeWarning = decide (0 < max 0 (parseNumber v)) ∧
      (updateCategoryAmount s i v).allocationClamped = s.allocationClamped) ∧
    (0 < s.income →
      (updateCategoryAmount s i v).categories =
        s.categories.set i ({ s.categories.get ⟨i, h⟩ with
          percentage := round2 (min (max 0 (parseNumber v) / s.income * 100) (maxPercentageFor s.categories i)),
          amount := if maxPercentageFor s.categories i < max 0 (parseNumber v) / s.income * 100
                    then round2 (s.income * round2 (min (max 0 (parseNumber v) / s.income * 100) (maxPercentageFor s.categories i)) / 100)
                    else round2 (max 0 (parseNumber v)) }) ∧
      (updateCategoryAmount s i v).allocationClamped
        = decide (maxPercentageFor s.categories i < max 0 (parseNumber v) / s.income * 100) ∧
      (updateCategoryAmount s i v).needsIncomeWarning = false) ∧
    (updateCategoryAmount s i v).income = s.income := by
  have hmin : (if maxPercentageFor s.categories i < max 0 (parseNumber v) / s.income * 100
               then maxPercentageFor s.categories i
               else max 0 (parseNumber v) / s.income * 100)
      = min (max 0 (parseNumber v) / s.income * 100) (maxPercentageFor s.categories i) := by
    rcases lt_or_le (maxPercentageFor s.categories i) (max 0 (parseNumber v) / s.income * 100) with hc | hc
    · rw [if_pos hc, min_eq_right hc.le]
    · rw [if_neg (not_lt.mpr hc), min_eq_left hc]
  unfold updateCategoryAmount
  rw [dif_pos h]
  by_cases hinc : s.income ≤ 0
  · rw [if_pos hinc]
    refine ⟨fun _ => ⟨rfl, rfl, rfl⟩, fun hpos => absurd hpos (not_lt.mpr hinc), rfl⟩
  · rw [if_neg hinc]
    refine ⟨fun hle => absurd hle hinc, fun _ => ⟨?_, rfl, rfl⟩, rfl⟩
    rw [← hmin]
    rfl

theorem claimC3_witness :
    (updateCategoryAmount (mkState 1000 [mkCat 0 0]) 0 (RawInput.num 250)).categories
      = [{ name := "", percentage := 25, amount := 250, isSavings := false }] ∧
    (updateCategoryAmount (mkState 1000 [mkCat 0 0]) 0 (RawInput.num 250)).allocationClamped = false ∧
    (updateCategoryAmount (mkState 1000 [mkCat 0 0]) 0 (RawInput.num 250)).needsIncomeWarning = false := by
  have h := claimC3_setCategoryAmount_amended (mkState 1000 [mkCat 0 0]) 0 (RawInput.num 250)
    (by norm_num [mkState, initialState])
  have hpos : (0:ℚ) < (mkState 1000 [mkCat 0 0]).income := by norm_num [mkState, initialState]
  obtain ⟨hcats, hflag, hwarn⟩ := h.2.1 hpos
  refine ⟨?_, ?_, hwarn⟩
  · rw [hcats]
    norm_num [mkState, initialState, mkCat, parseNumber, maxPercentageFor, round2, jsRound, List.set]
  · rw [hflag]
    norm_num [mkState, initialState, mkCat, parseNumber, maxPercentageFor]

/-- C3 counterexample: with income 0 and a raw amount of 200.005 the engine
stores the rounded 200.01, not the entered 200.005 that the claim says is
left in place. -/
theorem claimC3_counterexample :
    (updateCategoryAmount (mkState 0 [mkCat 0 0]) 0 (RawInput.num (40001/200))).categories
      = [{ name := "", percentage := 0, amount := 20001/100, isSavings := false }] ∧
    (20001 : ℚ)/100 ≠ 40001/200 := by
  constructor
  · norm_num [updateCategoryAmount, mkState, initialState, mkCat, parseNumber, roundCurrency, round2, jsRound, List.set]
  · norm_num

theorem coerceCategory_categoryJson (i : ℕ) (c : Category)
    (h1 : 0 ≤ c.percentage) (h2 : c.percentage ≤ 100) (h3 : round2 c.percentage = c.percentage)
    (h4 : 0 ≤ c.amount) (h5 : round2 c.amount = c.amount) :
    coerceCategory i (categoryJson c) = c := by
  unfold coerceCategory categoryJson jsRecord
  simp only [getField, List.find?, Option.getD_some]
  simp [coerceString, coerceNumber, coerceBoolean, clampNumber, roundPercentage, roundCurrency,
    max_eq_left h1, min_eq_left h2, h3, max_eq_right h4, h5]

theorem coerce_enumFrom_map (l : List Category) (n : ℕ)
    (hl : ∀ c ∈ l, 0 ≤ c.percentage ∧ c.percentage ≤ 100 ∧ round2 c.percentage = c.percentage ∧
      0 ≤ c.amount ∧ round2 c.amount = c.amount) :
    ((l.map categoryJson).enumFrom n).map (fun p => coerceCategory p.1 p.2) = l := by
  induction l generalizing n with
  | nil => simp
  | cons c t ih =>
    obtain ⟨h1, h2, h3, h4, h5⟩ := hl c (List.mem_cons_self c t)
    simp only [List.map_cons, List.enumFrom]
    rw [coerceCategory_categoryJson n c h1 h2 h3 h4 h5]
    rw [ih (n + 1) fun d hd => hl d (List.mem_cons_of_mem c hd)]

theorem parse_serialized_categories (l : List Category)
    (hl : ∀ c ∈ l, 0 ≤ c.percentage ∧ c.percentage ≤ 100 ∧ round2 c.percentage = c.percentage ∧
      0 ≤ c.amount ∧ round2 c.amount = c.amount) :
    parseCategoriesField (some (.arr (l.map categoryJson))) = l := by
  have hdef : parseCategoriesField (some (.arr (l.map categoryJson)))
      = ((l.map categoryJson).filter isRecordItem).enum.map (fun p => coerceCategory p.1 p.2) := rfl
  have hfilter : (l.map categoryJson).filter isRecordItem = l.map categoryJson := by
    rw [List.filter_eq_self]
    intro a ha
    obtain ⟨c, _, rfl⟩ := List.mem_map.mp ha
    rfl
  rw [hdef, hfilter]
  exact coerce_enumFrom_map l 0 hl

/-- C5: serialize followed by deserialize is the identity on valid states:
for a BudgetPlannerState with non-negative round2-rounded income, interest
rate and forecast period value, and categories whose percentages are in
[0, 100] and round2-rounded and whose amounts are non-negative and
round2-rounded, parseState of buildState succeeds and returns the same
state, category order preserved. -/
theorem claimC5_roundtrip (p : BudgetPlannerState) (h : validBudgetState p) :
    parseState (buildState p) = some p := by
  obtain ⟨hi0, hi2, hr0, hr2, hf0, hf2, hcats⟩ := h
  have hstate : parseState (buildState p) = some
      { income := max 0 (roundCurrency p.income),
        interestRate := max 0 (roundPercentage p.interestRate),
        forecastPeriodValue := max 0 p.forecastPeriodValue,
        forecastPeriodUnit := if isYearsMarker (some (.str (periodUnitText p.forecastPeriodUnit) none)) then .years else .months,
        categories := parseCategoriesField (some (.arr (p.categories.map categoryJson))) } := rfl
  rw [hstate, Option.some_inj]
  have hunit : (if isYearsMarker (some (.str (periodUnitText p.forecastPeriodUnit) none)) then PeriodUnit.years else PeriodUnit.months) = p.forecastPeriodUnit := by
    cases p.forecastPeriodUnit <;> rfl
  obtain ⟨pi, pr, pf, pu, pc⟩ := p
  simp only at hi0 hi2 hr0 hr2 hf0 hf2 hcats hunit
  simp only [BudgetPlannerState.mk.injEq]
  refine ⟨?_, ?_, ?_, hunit, ?_⟩
  · show max 0 (roundCurrency pi) = pi
    rw [roundCurrency, hi2, max_eq_right hi0]
  · show max 0 (roundPercentage pr) = pr
    rw [roundPercentage, hr2, max_eq_right hr0]
  · exact max_eq_right hf0
  · exact parse_serialized_categories pc hcats

theorem claimC5_witness :
    parseState (buildState { income := 1000, interestRate := 5, forecastPeriodValue := 2, forecastPeriodUnit := .years, categories := [{ name := "Emergency", percentage := 40, amount := 400, isSavings := true }] })
      = some { income := 1000, interestRate := 5, forecastPeriodValue := 2, forecastPeriodUnit := .years, categories := [{ name := "Emergency", percentage := 40, amount := 400, isSavings := true }] } := by
  apply claimC5_roundtrip
  refine ⟨by norm_num, by norm_num [round2, jsRound], by norm_num, by norm_num [round2, jsRound], by norm_num, by norm_num [round2, jsRound], ?_⟩
  intro c hc
  simp only [List.mem_singleton] at hc
  subst hc
  exact ⟨by norm_num, by norm_num, by norm_num [round2, jsRound], by norm_num, by norm_num [round2, jsRound]⟩

/-- C6 (amended): deserialize is a total function (never throws) and fails
exactly when the payload is malformed (no parse result) or its top-level
value is null, a boolean, a number or a string; a top-level array passes
the source's truthy-and-typeof-object guard — the case the original claim
gets wrong — and yields a default state instead of failing. On success a
categories field that is absent or not an array yields an empty category
list, and a categories element that is null or a primitive is dropped,
object and array elements surviving into field-by-field coercion. -/
theorem claimC6_deserialize_amended :
    (∀ raw : Option Json, deserialize raw = none ↔ topLevelRejected raw) ∧
    (∀ fields : List (String × Json), (∀ items : List Json, getField fields ("categories") ≠ some (.arr items)) →
      ∃ st, parseState (.obj fields) = some st ∧ st.categories = []) ∧
    (∀ (v : Json) (items : List Json), specKeepsElement v = false →
      parseCategoriesField (some (.arr (v :: items))) = parseCategoriesField (some (.arr items))) := by
  refine ⟨?_, ?_, ?_⟩
  · intro raw
    match raw with
    | none => simp [deserialize, topLevelRejected]
    | some .null => simp [deserialize, parseState, jsRecord, topLevelRejected]
    | some (.bool b) => simp [deserialize, parseState, jsRecord, topLevelRejected]
    | some (.num q) => simp [deserialize, parseState, jsRecord, topLevelRejected]
    | some (.str s f) => simp [deserialize, parseState, jsRecord, topLevelRejected]
    | some (.arr items) => simp [deserialize, parseState, jsRecord, topLevelRejected]
    | some (.obj fields) => simp [deserialize, parseState, jsRecord, topLevelRejected]
  · intro fields hnot
    refine ⟨_, rfl, ?_⟩
    show parseCategoriesField (getField fields ("categories")) = []
    match hval : getField fields ("categories") with
    | none => rfl
    | some .null => rfl
    | some (.bool b) => rfl
    | some (.num q) => rfl
    | some (.str s f) => rfl
    | some (.arr items) => exact absurd hval (hnot items)
    | some (.obj o) => rfl
  · intro v items hv
    have hrec : isRecordItem v = false := by
      match v with
      | .null => rfl
      | .bool b => rfl
      | .num q => rfl
      | .str s f => rfl
      | .arr a => exact absurd hv (by simp [specKeepsElement])
      | .obj o => exact absurd hv (by simp [specKeepsElement])
    show ((v :: items).filter isRecordItem).enum.map (fun p => coerceCategory p.1 p.2)
      = (items.filter isRecordItem).enum.map (fun p => coerceCategory p.1 p.2)
    rw [List.filter_cons_of_neg (by simp [hrec])]

theorem claimC6_witness :
    deserialize (some (Json.num 5)) = none ∧
    deserialize (some (Json.str ("not-an-object") none)) = none ∧
    parseCategoriesField (some (Json.str ("not-an-array") none)) = [] := by
  refine ⟨(claimC6_deserialize_amended.1 (some (Json.num 5))).mpr trivial, ?_, rfl⟩
  exact (claimC6_deserialize_amended.1 (some (Json.str ("not-an-object") none))).mpr trivial

/-- C6 counterexample: a top-level array is not a structured object, yet
deserialize succeeds on it (producing the default state) instead of
returning the failure the claim requires for every non-object top level. -/
theorem claimC6_counterexample :
    deserialize (some (Json.arr [])) = some { income := 0, interestRate := 0, forecastPeriodValue := 12, forecastPeriodUnit := .months, categories := [] } ∧
    deserialize (some (Json.arr [])) ≠ none := by
  refine ⟨rfl, ?_⟩
  intro hcontra
  exact Option.some_ne_none _ hcontra

theorem IsCent.list_sum {l : List ℚ} (h : ∀ x ∈ l, IsCent x) : IsCent l.sum := by
  induction l with
  | nil => simpa using isCent_zero
  | cons a t ih =>
    rw [List.sum_cons]
    exact (h a (List.mem_cons_self a t)).add (ih fun x hx => h x (List.mem_cons_of_mem a hx))

theorem sum_round2_mul_close (l : List ℚ) (K : ℚ) :
    |(l.map (fun a => round2 (a * K))).sum - l.sum * K| ≤ l.length / 200 := by
  induction l with
  | nil => simp
  | cons a t ih =>
    simp only [List.map_cons, List.sum_cons, List.length_cons]
    have h1 := abs_round2_sub_le (a * K)
    have htri := abs_add (round2 (a * K) - a * K) ((t.map (fun a => round2 (a * K))).sum - t.sum * K)
    have hcast : ((t.length + 1 : ℕ) : ℚ) = (t.length : ℚ) + 1 := by push_cast; ring
    have heq : round2 (a * K) + (t.map (fun a => round2 (a * K))).sum - (a + t.sum) * K
        = (round2 (a * K) - a * K) + ((t.map (fun a => round2 (a * K))).sum - t.sum * K) := by ring
    rw [heq, hcast]
    calc |(round2 (a * K) - a * K) + ((t.map (fun a => round2 (a * K))).sum - t.sum * K)|
        ≤ |round2 (a * K) - a * K| + |(t.map (fun a => round2 (a * K))).sum - t.sum * K| := htri
      _ ≤ 1/200 + (t.length : ℚ) / 200 := add_le_add h1 ih
      _ = ((t.length : ℚ) + 1) / 200 := by ring

theorem futureValue_of_months_nonpos (s : EngineState) (c : ℚ) (hm : forecastMonths s ≤ 0) :
    futureValueForContribution s c = 0 := by
  unfold futureValueForContribution
  rw [if_pos (Or.inr hm)]

theorem futureValue_eq_round2_mul (s : EngineState) (c : ℚ) (hm : 0 < forecastMonths s) (hc : 0 ≤ c) :
    futureValueForContribution s c
      = round2 (c * (if max 0 s.interestRate / 100 / 12 = 0 then forecastMonths s
                     else (powQ (1 + max 0 s.interestRate / 100 / 12) (forecastMonths s) - 1) / (max 0 s.interestRate / 100 / 12))) := by
  rcases eq_or_lt_of_le hc with hc0 | hcpos
  · rw [← hc0]
    unfold futureValueForContribution
    rw [if_pos (Or.inl le_rfl), zero_mul, round2_zero]
  · unfold futureValueForContribution
    rw [if_neg (by push_neg; exact ⟨hcpos, hm⟩)]
    by_cases hr : max 0 s.interestRate / 100 / 12 = 0
    · rw [if_pos hr, if_pos hr]
      rfl
    · rw [if_neg hr, if_neg hr]
      rfl

theorem enum_map_snd_comp {α β : Type} (l : List α) (f : α → β) :
    l.enum.map (fun p => f p.2) = l.map f := by
  have : (fun p : ℕ × α => f p.2) = f ∘ Prod.snd := rfl
  rw [this, ← List.map_map, List.enum_map_snd]

/-- C7: the per-category savings projections sum to the aggregate
projection within rounding: for a state whose savings categories carry
non-negative cent-rounded amounts, the distance between the sum of
savingsForecasts' projectedValue entries and projectedSavingsValue is at
most (n + 1) / 200 — one half-cent per rounding performed — which is the
linearity of the annuity future value in the contribution. -/
theorem claimC7_forecast_linearity (s : EngineState)
    (h : ∀ c ∈ s.categories, c.isSavings = true → 0 ≤ c.amount ∧ IsCent c.amount) :
    |((savingsForecasts s).map (·.projectedValue)).sum - projectedSavingsValue s|
      ≤ (((s.categories.filter (·.isSavings)).length : ℚ) + 1) / 200 := by
  have hmem : ∀ c ∈ s.categories.filter (·.isSavings), 0 ≤ c.amount ∧ IsCent c.amount := by
    intro c hc
    have := List.mem_filter.mp hc
    exact h c this.1 this.2
  have hproj : ((savingsForecasts s).map (·.projectedValue)).sum
      = ((s.categories.filter (·.isSavings)).map (fun c => futureValueForContribution s c.amount)).sum := by
    unfold savingsForecasts
    rw [List.map_map]
    have : ((s.categories.filter (·.isSavings)).enum.map (fun p => futureValueForContribution s p.2.amount))
        = (s.categories.filter (·.isSavings)).map (fun c => futureValueForContribution s c.amount) :=
      enum_map_snd_comp (s.categories.filter (·.isSavings)) (fun c => futureValueForContribution s c.amount)
    rw [← this]
    rfl
  have hT : totalSavingsAllocation s = ((s.categories.filter (·.isSavings)).map (·.amount)).sum := by
    unfold totalSavingsAllocation roundCurrency
    rw [foldl_add_eq_sum, zero_add]
    exact round2_of_isCent (IsCent.list_sum fun x hx => by
      obtain ⟨c, hc, rfl⟩ := List.mem_map.mp hx
      exact (hmem c hc).2)
  have hTnn : 0 ≤ ((s.categories.filter (·.isSavings)).map (·.amount)).sum :=
    List.sum_nonneg fun x hx => by
      obtain ⟨c, hc, rfl⟩ := List.mem_map.mp hx
      exact (hmem c hc).1
  rcases le_or_lt (forecastMonths s) 0 with hm | hm
  · have hz : ((s.categories.filter (·.isSavings)).map (fun c => futureValueForContribution s c.amount)).sum = 0 := by
      rw [List.map_congr_left fun c _ => futureValue_of_months_nonpos s c.amount hm]
      simp
    rw [hproj, hz]
    unfold projectedSavingsValue
    rw [futureValue_of_months_nonpos s _ hm]
    simp only [sub_zero, abs_zero]
    positivity
  · have hfv : ∀ c ∈ s.categories.filter (·.isSavings),
        futureValueForContribution s c.amount
          = round2 (c.amount * (if max 0 s.interestRate / 100 / 12 = 0 then forecastMonths s
              else (powQ (1 + max 0 s.interestRate / 100 / 12) (forecastMonths s) - 1) / (max 0 s.interestRate / 100 / 12))) :=
      fun c hc => futureValue_eq_round2_mul s c.amount hm (hmem c hc).1
    have hagg : projectedSavingsValue s
        = round2 (((s.categories.filter (·.isSavings)).map (·.amount)).sum
            * (if max 0 s.interestRate / 100 / 12 = 0 then forecastMonths s
               else (powQ (1 + max 0 s.interestRate / 100 / 12) (forecastMonths s) - 1) / (max 0 s.interestRate / 100 / 12))) := by
      unfold projectedSavingsValue
      rw [futureValue_eq_round2_mul s _ hm (hT ▸ hTnn), hT]
    rw [hproj, hagg, List.map_congr_left hfv]
    have hmm : (s.categories.filter (·.isSavings)).map
        (fun c => round2 (c.amount * (if max 0 s.interestRate / 100 / 12 = 0 then forecastMonths s
            else (powQ (1 + max 0 s.interestRate / 100 / 12) (forecastMonths s) - 1) / (max 0 s.interestRate / 100 / 12))))
        = ((s.categories.filter (·.isSavings)).map (·.amount)).map
            (fun a => round2 (a * (if max 0 s.interestRate / 100 / 12 = 0 then forecastMonths s
                else (powQ (1 + max 0 s.interestRate / 100 / 12) (forecastMonths s) - 1) / (max 0 s.interestRate / 100 / 12)))) := by
      rw [List.map_map]
      rfl
    rw [hmm]
    set K : ℚ := (if max 0 s.interestRate / 100 / 12 = 0 then forecastMonths s
        else (powQ (1 + max 0 s.interestRate / 100 / 12) (forecastMonths s) - 1) / (max 0 s.interestRate / 100 / 12)) with hK
    set A : List ℚ := (s.categories.filter (·.isSavings)).map (·.amount) with hA
    have hlen : (A.length : ℚ) = ((s.categories.filter (·.isSavings)).length : ℚ) := by
      rw [hA, List.length_map]
    have h1 := sum_round2_mul_close A K
    have h2 := abs_round2_sub_le (A.sum * K)
    have htri := abs_sub_abs_le_abs_sub ((A.map (fun a => round2 (a * K))).sum - A.sum * K) (round2 (A.sum * K) - A.sum * K)
    have : |(A.map (fun a => round2 (a * K))).sum - round2 (A.sum * K)|
        ≤ |(A.map (fun a => round2 (a * K))).sum - A.sum * K| + |round2 (A.sum * K) - A.sum * K| := by
      have heq : (A.map (fun a => round2 (a * K))).sum - round2 (A.sum * K)
          = ((A.map (fun a => round2 (a * K))).sum - A.sum * K) - (round2 (A.sum * K) - A.sum * K) := by ring
      rw [heq]
      exact abs_sub _ _
    calc |(A.map (fun a => round2 (a * K))).sum - round2 (A.sum * K)|
        ≤ |(A.map (fun a => round2 (a * K))).sum - A.sum * K| + |round2 (A.sum * K) - A.sum * K| := this
      _ ≤ (A.length : ℚ) / 200 + 1/200 := add_le_add h1 h2
      _ = ((A.length : ℚ) + 1) / 200 := by ring
      _ = (((s.categories.filter (·.isSavings)).length : ℚ) + 1) / 200 := by rw [hlen]

theorem claimC7_witness :
    |((savingsForecasts (mkState 1000 [{ mkCat 1 10 with isSavings := true }, { mkCat 2 20 with isSavings := true }])).map (·.projectedValue)).sum
      - projectedSavingsValue (mkState 1000 [{ mkCat 1 10 with isSavings := true }, { mkCat 2 20 with isSavings := true }])| ≤ 3/200 := by
  have h := claimC7_forecast_linearity (mkState 1000 [{ mkCat 1 10 with isSavings := true }, { mkCat 2 20 with isSavings := true }]) ?hyp
  case hyp =>
    intro c hc hs
    simp only [mkState, initialState, mkCat, List.mem_cons, List.not_mem_nil, or_false] at hc
    rcases hc with rfl | rfl
    · exact ⟨by norm_num, ⟨1000, by norm_num⟩⟩
    · exact ⟨by norm_num, ⟨2000, by norm_num⟩⟩
  calc |((savingsForecasts (mkState 1000 [{ mkCat 1 10 with isSavings := true }, { mkCat 2 20 with isSavings := true }])).map (·.projectedValue)).sum
      - projectedSavingsValue (mkState 1000 [{ mkCat 1 10 with isSavings := true }, { mkCat 2 20 with isSavings := true }])|
      ≤ ((((mkState 1000 [{ mkCat 1 10 with isSavings := true }, { mkCat 2 20 with isSavings := true }]).categories.filter (·.isSavings)).length : ℚ) + 1) / 200 := h
    _ = 3/200 := by
        norm_num [mkState, initialState, mkCat, List.filter]

theorem map_eraseIdx_pct (l : List Category) (i : ℕ) :
    (l.eraseIdx i).map (·.percentage) = (l.map (·.percentage)).eraseIdx i := by
  induction l generalizing i with
  | nil => simp
  | cons c t ih =>
    cases i with
    | zero => simp [List.eraseIdx]
    | succ n => simp [List.eraseIdx, ih]

theorem othersSum_nonneg (l : List Category) (i : ℕ) (hP : ∀ c ∈ l, PctOk c) :
    0 ≤ ((l.eraseIdx i).map (·.percentage)).sum :=
  List.sum_nonneg fun x hx => by
    obtain ⟨c, hc, rfl⟩ := List.mem_map.mp hx
    exact (hP c (List.mem_of_mem_eraseIdx hc)).1

theorem othersSum_le (l : List Category) (i : ℕ)
    (hP : ∀ c ∈ l, PctOk c) (hS : (l.map (·.percentage)).sum ≤ 100) :
    ((l.eraseIdx i).map (·.percentage)).sum ≤ 100 := by
  rw [map_eraseIdx_pct]
  refine le_trans (sum_eraseIdx_le _ i ?_) hS
  intro x hx
  obtain ⟨c, hc, rfl⟩ := List.mem_map.mp hx
  exact (hP c hc).1

theorem othersSum_isCent (l : List Category) (i : ℕ) (hP : ∀ c ∈ l, PctOk c) :
    IsCent ((l.eraseIdx i).map (·.percentage)).sum :=
  IsCent.list_sum fun x hx => by
    obtain ⟨c, hc, rfl⟩ := List.mem_map.mp hx
    exact (hP c (List.mem_of_mem_eraseIdx hc)).2.2

theorem maxPercentageFor_isCent (l : List Category) (i : ℕ) (hP : ∀ c ∈ l, PctOk c) :
    IsCent (maxPercentageFor l i) :=
  ((othersSum_isCent l i hP).of_sub_from_hundred).max_zero

theorem newPct_bounds (l : List Category) (i : ℕ)
    (hP : ∀ c ∈ l, PctOk c) (hS : (l.map (·.percentage)).sum ≤ 100)
    (applied : ℚ) (h0 : 0 ≤ applied) (hle : applied ≤ maxPercentageFor l i) :
    PctOk { name := "", percentage := round2 applied, amount := 0, isSavings := false } ∧
    ((l.eraseIdx i).map (·.percentage)).sum + round2 applied ≤ 100 := by
  have hO0 : 0 ≤ ((l.eraseIdx i).map (·.percentage)).sum := othersSum_nonneg l i hP
  have hOle : ((l.eraseIdx i).map (·.percentage)).sum ≤ 100 := othersSum_le l i hP hS
  have hcent : IsCent (maxPercentageFor l i) := maxPercentageFor_isCent l i hP
  have hr_le_max : round2 applied ≤ maxPercentageFor l i := round2_le_of_le_cent hle hcent
  have hr0 : 0 ≤ round2 applied := round2_nonneg h0
  have hmax_le : maxPercentageFor l i ≤ 100 := by
    unfold maxPercentageFor
    rw [max_le_iff]
    constructor <;> linarith
  have hsum : ((l.eraseIdx i).map (·.percentage)).sum + round2 applied ≤ 100 := by
    have : ((l.eraseIdx i).map (·.percentage)).sum + maxPercentageFor l i ≤ 100 := by
      unfold maxPercentageFor
      rcases le_total (100 - ((l.eraseIdx i).map (·.percentage)).sum) 0 with hc | hc
      · rw [max_eq_left hc]; linarith
      · rw [max_eq_right hc]; linarith
    linarith
  exact ⟨⟨hr0, le_trans hr_le_max hmax_le, round2_isCent applied⟩, hsum⟩

theorem engineInv_set_newPct (s : EngineState) (i : ℕ) (h : i < s.categories.length)
    (hinv : EngineInv s) (c' : Category)
    (hpc : ∃ applied, 0 ≤ applied ∧ applied ≤ maxPercentageFor s.categories i ∧ c'.percentage = round2 applied) :
    (∀ c ∈ s.categories.set i c', PctOk c) ∧
    ((s.categories.set i c').map (·.percentage)).sum ≤ 100 := by
  obtain ⟨hP, hS⟩ := hinv
  obtain ⟨applied, h0, hle, hpct⟩ := hpc
  obtain ⟨hok, hsum⟩ := newPct_bounds s.categories i hP hS applied h0 hle
  constructor
  · intro c hc
    rcases List.mem_or_eq_of_mem_set hc with hmem | rfl
    · exact hP c hmem
    · unfold PctOk at hok ⊢
      rw [hpct]
      exact hok
  · rw [List.map_set, sum_set_eq _ i (by simpa using h), ← map_eraseIdx_pct, hpct]
    exact hsum

theorem engineInv_set_samePct (s : EngineState) (i : ℕ) (h : i < s.categories.length)
    (hinv : EngineInv s) (c' : Category)
    (hpct : c'.percentage = (s.categories.get ⟨i, h⟩).percentage) :
    (∀ c ∈ s.categories.set i c', PctOk c) ∧
    ((s.categories.set i c').map (·.percentage)).sum ≤ 100 := by
  obtain ⟨hP, hS⟩ := hinv
  constructor
  · intro c hc
    rcases List.mem_or_eq_of_mem_set hc with hmem | rfl
    · exact hP c hmem
    · have := hP _ (s.categories.get_mem i h)
      unfold PctOk at this ⊢
      rw [hpct]
      exact this
  · rw [List.map_set, sum_set_eq _ i (by simpa using h)]
    have hup : ((s.categories.map (·.percentage)).eraseIdx i).sum + (s.categories.map (·.percentage)).get ⟨i, by simpa using h⟩ = (s.categories.map (·.percentage)).sum :=
      sum_eraseIdx_add_get _ i (by simpa using h)
    have hg : (s.categories.map (·.percentage)).get ⟨i, by simpa using h⟩ = (s.categories.get ⟨i, h⟩).percentage := by
      simp
    rw [hpct, ← hg]
    linarith

theorem engineInv_initial : EngineInv initialState := by
  unfold EngineInv initialState
  simp

theorem engineInv_updateIncome (s : EngineState) (v : RawInput) (h : EngineInv s) :
    EngineInv (updateIncome s v) := by
  obtain ⟨hP, hS⟩ := h
  unfold EngineInv
  have hc : (updateIncome s v).categories
      = s.categories.map (fun d => { d with amount := roundCurrency (max 0 (parseNumber v) * d.percentage / 100) }) := rfl
  rw [hc]
  constructor
  · intro c hcm
    obtain ⟨d, hd, rfl⟩ := List.mem_map.mp hcm
    exact hP d hd
  · rw [List.map_map]
    have heq : ((fun x : Category => x.percentage) ∘ fun d : Category => { d with amount := roundCurrency (max 0 (parseNumber v) * d.percentage / 100) }) = fun d : Category => d.percentage := rfl
    rw [heq]
    exact hS

theorem engineInv_addCategory (s : EngineState) (h : EngineInv s) :
    EngineInv (addCategory s) := by
  obtain ⟨hP, hS⟩ := h
  unfold EngineInv
  have hc : (addCategory s).categories
      = s.categories ++ [{ name := "Category " ++ toString (s.categories.length + 1), percentage := 0, amount := 0, isSavings := false }] := rfl
  rw [hc]
  constructor
  · intro c hcm
    rcases List.mem_append.mp hcm with hmem | hnew
    · exact hP c hmem
    · rw [List.mem_singleton] at hnew
      subst hnew
      exact ⟨le_refl 0, by norm_num, isCent_zero⟩
  · rw [List.map_append, List.sum_append]
    simp only [List.map_cons, List.map_nil, List.sum_cons, List.sum_nil]
    linarith

theorem engineInv_removeCategory (s : EngineState) (i : ℤ) (h : EngineInv s) :
    EngineInv (removeCategory s i) := by
  obtain ⟨hP, hS⟩ := h
  have hsplice : ∃ k : ℕ, spliceRemoveOne s.categories i = s.categories.eraseIdx k :=
    ⟨_, (List.eraseIdx_eq_take_drop_succ _ _).symm⟩
  obtain ⟨k, hk⟩ := hsplice
  unfold EngineInv removeCategory
  rw [hk]
  constructor
  · intro c hc
    exact hP c (List.mem_of_mem_eraseIdx hc)
  · rw [map_eraseIdx_pct]
    refine le_trans (sum_eraseIdx_le _ k ?_) hS
    intro x hx
    obtain ⟨c, hc, rfl⟩ := List.mem_map.mp hx
    exact (hP c hc).1

theorem engineInv_updateCategoryName (s : EngineState) (i : ℕ) (v : String) (h : EngineInv s) :
    EngineInv (updateCategoryName s i v) := by
  unfold updateCategoryName
  by_cases hi : i < s.categories.length
  · rw [dif_pos hi]
    unfold EngineInv
    exact engineInv_set_samePct s i hi h _ rfl
  · rw [dif_neg hi]
    exact h

theorem engineInv_updateCategorySavings (s : EngineState) (i : ℕ) (v : Bool) (h : EngineInv s) :
    EngineInv (updateCategorySavings s i v) := by
  unfold updateCategorySavings
  by_cases hi : i < s.categories.length
  · rw [dif_pos hi]
    unfold EngineInv
    exact engineInv_set_samePct s i hi h _ rfl
  · rw [dif_neg hi]
    exact h

theorem clampNumber_nonneg (v : ℚ) : 0 ≤ clampNumber v 0 100 := by
  unfold clampNumber
  exact le_min (le_max_right v 0) (by norm_num)

theorem engineInv_updateCategoryPercentage (s : EngineState) (i : ℕ) (v : RawInput) (h : EngineInv s) :
    EngineInv (updateCategoryPercentage s i v) := by
  unfold updateCategoryPercentage
  by_cases hi : i < s.categories.length
  · rw [dif_pos hi]
    unfold EngineInv
    refine engineInv_set_newPct s i hi h _ ⟨min (clampNumber (parseNumber v) 0 100) (maxPercentageFor s.categories i), ?_, min_le_right _ _, rfl⟩
    exact le_min (clampNumber_nonneg _) (le_max_left 0 _)
  · rw [dif_neg hi]
    exact h

theorem engineInv_updateCategoryAmount (s : EngineState) (i : ℕ) (v : RawInput) (h : EngineInv s) :
    EngineInv (updateCategoryAmount s i v) := by
  unfold updateCategoryAmount
  by_cases hi : i < s.categories.length
  · rw [dif_pos hi]
    by_cases hinc : s.income ≤ 0
    · rw [if_pos hinc]
      unfold EngineInv
      refine engineInv_set_newPct s i hi h _ ⟨0, le_refl 0, le_max_left 0 _, round2_zero.symm⟩
    · rw [if_neg hinc]
      unfold EngineInv
      have hraw : 0 ≤ max 0 (parseNumber v) / s.income * 100 := by
        have hincpos : 0 < s.income := lt_of_not_le hinc
        positivity
      refine engineInv_set_newPct s i hi h _ ⟨(if maxPercentageFor s.categories i < max 0 (parseNumber v) / s.income * 100 then maxPercentageFor s.categories i else max 0 (parseNumber v) / s.income * 100), ?_, ?_, rfl⟩
      · split
        · exact le_max_left 0 _
        · exact hraw
      · split
        · exact le_refl _
        · next hc => exact le_of_not_lt hc
  · rw [dif_neg hi]
    exact h

theorem engineInv_step (s : EngineState) (op : Op) (h : EngineInv s) : EngineInv (step s op) := by
  cases op with
  | setIncome v => exact engineInv_updateIncome s v h
  | addCategory => exact engineInv_addCategory s h
  | removeCategory i => exact engineInv_removeCategory s i h
  | setCategoryName i v => exact engineInv_updateCategoryName s i v h
  | setCategorySavings i v => exact engineInv_updateCategorySavings s i v h
  | setCategoryPercentage i v => exact engineInv_updateCategoryPercentage s i v h
  | setCategoryAmount i v => exact engineInv_updateCategoryAmount s i v h

theorem engineInv_foldl (ops : List Op) (s : EngineState) (h : EngineInv s) :
    EngineInv (ops.foldl step s) := by
  induction ops generalizing s with
  | nil => exact h
  | cons op rest ih => exact ih (step s op) (engineInv_step s op h)

/-- C1: starting from the empty initial state, after any sequence of the
seven AllocationEngine operations (each applied with its completed-write
semantics), the sum of all categories' percentage fields is at most 100:
every percentage write rounds a value clamped under the remaining headroom
max(0, 100 - sum of the others), and rounding cannot escape the cent grid
the invariant lives on. -/
theorem claimC1_allocation_invariant (ops : List Op) : totalPercentage (runOps ops) ≤ 100 := by
  rw [totalPercentage_eq_sum]
  exact (engineInv_foldl ops initialState engineInv_initial).2

theorem claimC10_witness :
    updateCategoryPercentage (updateCategoryPercentage (mkState 1000 [mkCat 0 0]) 0 (RawInput.num 30)) 0 (RawInput.num 30)
      = updateCategoryPercentage (mkState 1000 [mkCat 0 0]) 0 (RawInput.num 30) :=
  claimC10_setCategoryPercentage_idempotent (mkState 1000 [mkCat 0 0]) 0 (RawInput.num 30)
    (by norm_num [mkState, initialState])
